import Mathlib

/-!
Verification model of `mes` (src/mes/main.py), an interactive curses file
browser.  The development shallowly embeds the parts of the program the claims
are about:

* paths are modelled as lists of name components (`os.path.join a b` becomes
  `a ++ [b]`; `os.path.dirname` becomes `List.dropLast`; `os.path.basename`
  becomes the last component).  This is faithful for the names the program
  manipulates, which never contain a path separator;
* the file system is a finite tree (`FsTree`); the children of the root
  directory are a `List FsTree` and `os.listdir` returns the stored child
  order (the OS order is unspecified, so it is a parameter of the model);
* Python strings are Lean strings; `str.lower` is modelled on ASCII
  (`charLower`), which is what every string constant of the program uses;
* the blocking popups (`get_input_popup`, `confirm_popup`,
  `show_context_menu`) are synchronous sub-loops whose outcome is an input of
  the event: an `Oracles` record carries the text a popup would return, the
  confirmation answer and the chosen context-menu action;
* the event loop body of `main` is the function `step`: it first performs the
  scroll adjustment done by `draw_files` (which also produces the click-region
  map used by the mouse branch) and then dispatches exactly as the
  `if`/`elif` chain of `main` does, keyed by the `curses` key codes.
-/

/-! ### String helpers (reducible models of the Python string operations) -/

/-- ASCII lower-casing of one character, the model of what `str.lower` does on
the ASCII names this program compares. -/
def charLower (c : Char) : Char :=
  if 'A' ≤ c ∧ c ≤ 'Z' then Char.ofNat (c.toNat + 32) else c

/-- Model of `s.lower()` (as a character list, the form used for matching). -/
def pyLower (s : String) : List Char := s.data.map charLower

/-- Model of `s.startswith('.')`: the hidden-file test of the program. -/
def pyStartsDot (s : String) : Bool :=
  match s.data with
  | [] => false
  | c :: _ => c = '.'

/-- Model of the Python substring test `needle in hay`. -/
def pyContains (needle : List Char) : List Char → Bool
  | [] => needle.isEmpty
  | c :: rest => needle.isPrefixOf (c :: rest) || pyContains needle rest

/-- Lexicographic comparison of code-point lists: the order `sorted` uses on
Python strings. -/
def lexLe : List Char → List Char → Bool
  | [], _ => true
  | _ :: _, [] => false
  | a :: as, b :: bs => a.toNat < b.toNat || (a.toNat = b.toNat && lexLe as bs)

/-- The string order used by `sorted` in `list_dir`. -/
def strLeP (a b : String) : Prop := lexLe a.data b.data = true

instance : DecidableRel strLeP := fun a b => by unfold strLeP; infer_instance

theorem lexLe_total (a b : List Char) : lexLe a b = true ∨ lexLe b a = true := by
  induction a generalizing b with
  | nil => left; rfl
  | cons x xs ih =>
    cases b with
    | nil => right; rfl
    | cons y ys =>
      rcases Nat.lt_trichotomy x.toNat y.toNat with h | h | h
      · left; simp [lexLe, h]
      · rcases ih ys with h2 | h2
        · left; simp [lexLe, h, h2]
        · right; simp [lexLe, h, h2]
      · right; simp [lexLe, h]

theorem lexLe_trans (a b c : List Char) (h1 : lexLe a b = true) (h2 : lexLe b c = true) :
    lexLe a c = true := by
  induction a generalizing b c with
  | nil => rfl
  | cons x xs ih =>
    cases b with
    | nil => simp [lexLe] at h1
    | cons y ys =>
      cases c with
      | nil => simp [lexLe] at h2
      | cons z zs =>
        simp only [lexLe, Bool.or_eq_true, Bool.and_eq_true, decide_eq_true_eq] at h1 h2 ⊢
        rcases h1 with h1 | ⟨h1e, h1r⟩
        · rcases h2 with h2 | ⟨h2e, h2r⟩
          · left; omega
          · left; omega
        · rcases h2 with h2 | ⟨h2e, h2r⟩
          · left; omega
          · right; exact ⟨by omega, ih ys zs h1r h2r⟩

instance : IsTotal String strLeP := ⟨fun a b => lexLe_total a.data b.data⟩

instance : IsTrans String strLeP :=
  ⟨fun a b c h1 h2 => lexLe_trans a.data b.data c.data h1 h2⟩

/-- Model of Python `sorted` on a list of names. -/
def sortNames (l : List String) : List String := List.insertionSort strLeP l

/-! ### Configuration

The program keeps a module-level mutable dictionary `CONFIG`; it is carried
explicitly here (inside the browser state, since the `h` key mutates it). -/

structure Config where
  show_hidden : Bool
  sort_dirs_first : Bool
  preview_max_lines : Nat
  search_max_depth : Nat
  confirm_actions : Bool
deriving DecidableEq

/-- The initial `CONFIG` dictionary of the program. -/
def CONFIG : Config :=
  { show_hidden := false
    sort_dirs_first := true
    preview_max_lines := 50
    search_max_depth := 3
    confirm_actions := true }

/-! ### The file-system tree -/

inductive FsTree where
  | file (name : String)
  | dir (name : String) (children : List FsTree)

def FsTree.name : FsTree → String
  | .file n => n
  | .dir n _ => n

def FsTree.isDir : FsTree → Bool
  | .file _ => false
  | .dir _ _ => true

/-- Children of a node (empty for a plain file). -/
def childrenList : FsTree → List FsTree
  | .file _ => []
  | .dir _ cs => cs

/-- First child of a directory with the given name (name resolution of one
path component). -/
def findChild : List FsTree → String → Option FsTree
  | [], _ => none
  | t :: rest, n => if t.name = n then some t else findChild rest n

/-- Resolve a path (relative to the root children `cs`) to the listed
children of the directory it denotes. -/
def getDirChildren (cs : List FsTree) : List String → Option (List FsTree)
  | [] => some cs
  | d :: rest =>
    match findChild cs d with
    | some (.dir _ cs') => getDirChildren cs' rest
    | _ => none

/-- Resolve a non-empty path to the node it denotes. -/
def getNodeAt (cs : List FsTree) : List String → Option FsTree
  | [] => none
  | [n] => findChild cs n
  | d :: rest =>
    match findChild cs d with
    | some (.dir _ cs') => getNodeAt cs' rest
    | _ => none

/-- Model of `os.path.isdir` for a non-empty path below the root. -/
def isDirAtPath (cs : List FsTree) (p : List String) : Bool :=
  match getNodeAt cs p with
  | some (.dir _ _) => true
  | _ => false

theorem one_le_sizeOf_forest (l : List FsTree) : 1 ≤ sizeOf l := by
  cases l with
  | nil => simp only [List.nil.sizeOf_spec]; omega
  | cons t rest => simp only [List.cons.sizeOf_spec]; omega

theorem childrenList_sizeOf_lt (t : FsTree) (rest : List FsTree) :
    sizeOf (childrenList t) < sizeOf (t :: rest) := by
  cases t with
  | file n =>
    simp only [childrenList, List.cons.sizeOf_spec, List.nil.sizeOf_spec,
      FsTree.file.sizeOf_spec]
    omega
  | dir n cs =>
    simp only [childrenList, List.cons.sizeOf_spec, FsTree.dir.sizeOf_spec]
    omega

theorem rest_sizeOf_lt (t : FsTree) (rest : List FsTree) :
    sizeOf rest < sizeOf (t :: rest) := by
  simp only [List.cons.sizeOf_spec]
  have := one_le_sizeOf_forest (childrenList t)
  omega

/-- Well-formedness of a directory tree: sibling names are distinct at every
level, as `os.listdir` guarantees for a real file system. -/
def wfForest : List FsTree → Bool
  | [] => true
  | t :: rest =>
    wfForest (childrenList t) && !((rest.map FsTree.name).contains t.name) && wfForest rest
termination_by cs => sizeOf cs
decreasing_by
  · exact childrenList_sizeOf_lt t rest
  · exact rest_sizeOf_lt t rest

/-! ### A structural induction principle for forests

`FsTree` nests `List`, so the recursive definitions above are compiled by
well-founded recursion; this principle is what the proofs below induct with. -/

theorem forest_ind (motive : List FsTree → Prop)
    (hnil : motive [])
    (hcons : ∀ t rest, motive (childrenList t) → motive rest → motive (t :: rest)) :
    ∀ cs, motive cs := by
  have key : ∀ n cs, sizeOf cs ≤ n → motive cs := by
    intro n
    induction n with
    | zero =>
      intro cs h
      cases cs with
      | nil => exact hnil
      | cons t rest =>
        have := one_le_sizeOf_forest (t :: rest)
        omega
    | succ n ih =>
      intro cs h
      cases cs with
      | nil => exact hnil
      | cons t rest =>
        apply hcons
        · apply ih
          have := childrenList_sizeOf_lt t rest
          omega
        · apply ih
          have := rest_sizeOf_lt t rest
          omega
  intro cs
  exact key (sizeOf cs) cs le_rfl

/-! ### Directory listing (`list_dir`, main.py lines 144-160) -/

/-- What the comprehension `os.path.isdir(os.path.join(path, e))` sees for the
name `e` of an entry of the directory whose children are `cs`. -/
def isDirNamed (cs : List FsTree) (n : String) : Bool :=
  match findChild cs n with
  | some (.dir _ _) => true
  | _ => false

/-- Core of `list_dir` once `os.listdir` produced the raw entries `cs`:
dot-name filtering, then directories-first sorting or plain sorting. -/
def listDirCore (cfg : Config) (cs : List FsTree) : List String :=
  let entries := cs.map FsTree.name
  let entries := if cfg.show_hidden then entries else entries.filter (fun e => !(pyStartsDot e))
  if cfg.sort_dirs_first then
    sortNames (entries.filter (fun e => isDirNamed cs e)) ++
      sortNames (entries.filter (fun e => !(isDirNamed cs e)))
  else
    sortNames entries

/-- Failure of `os.listdir` that `list_dir` catches.  Only `PermissionError`
is caught by the source; other `OSError`s would propagate and are outside the
model. -/
inductive ListFail where
  | permissionDenied
deriving DecidableEq

/-- Model of `list_dir`: the argument is the outcome of `os.listdir`. -/
def list_dir (cfg : Config) (r : Except ListFail (List FsTree)) : List String :=
  match r with
  | .error _ => []
  | .ok cs => listDirCore cfg cs

/-- The listing the event loop obtains for the directory at `p` (all paths the
loop passes exist and are readable; a missing directory would raise an
uncaught exception in the source). -/
def listDirAt (cfg : Config) (cs : List FsTree) (p : List String) : List String :=
  listDirCore cfg ((getDirChildren cs p).getD [])

/-! ### Recursive search (`search_files_recursive`, main.py lines 162-193) -/

/-- One search result: `(display_path, absolute_path)`, both as component
lists. -/
abbrev SResult := List String × List String

/-- The body of the nested `search_in_dir`: `cs` are the entries of the
directory being scanned, `cur`/`rel` its absolute and display path, `acc` the
`results` accumulator.  The guard `len(results) >= max_results or depth >
max_depth` that the source checks on entry to `search_in_dir` is checked here
at the call site, with the callee's argument `depth + 1`, which is
equivalent. -/
def searchGo (cfg : Config) (maxR : Nat) (ql : List Char) :
    List FsTree → List String → List String → Nat → List SResult → List SResult
  | [], _, _, _, acc => acc
  | t :: rest, cur, rel, depth, acc =>
    if maxR ≤ acc.length then acc
    else if !cfg.show_hidden && pyStartsDot t.name then
      searchGo cfg maxR ql rest cur rel depth acc
    else
      let acc1 := if pyContains ql (pyLower t.name) then
          acc ++ [(rel ++ [t.name], cur ++ [t.name])] else acc
      let acc2 :=
        match t with
        | .file _ => acc1
        | .dir _ children =>
          if maxR ≤ acc1.length ∨ cfg.search_max_depth < depth + 1 then acc1
          else searchGo cfg maxR ql children (cur ++ [t.name]) (rel ++ [t.name]) (depth + 1) acc1
      searchGo cfg maxR ql rest cur rel depth acc2

/-- `search_files_recursive(root_path, query, max_results)`: `rootChildren`
is what `os.listdir(root_path)` yields.  The entry guard of the top-level
`search_in_dir(root_path)` call is `0 >= max_results or 0 > max_depth`; the
second disjunct is vacuous. -/
def search_files_recursive (cfg : Config) (rootChildren : List FsTree)
    (rootPath : List String) (query : String) (maxResults : Nat) : List SResult :=
  if maxResults ≤ 0 then []
  else searchGo cfg maxResults (pyLower query) rootChildren rootPath [] 0 []

/-- Truncation of a tree below a given depth: `pruneAt 0` drops the children
of the node itself. -/
def pruneAt : Nat → FsTree → FsTree
  | _, .file n => .file n
  | 0, .dir n _ => .dir n []
  | k + 1, .dir n cs => .dir n (cs.map (pruneAt k))

/-! ### Viewport layout (`draw_files`, main.py lines 428-442)

`max_visible = h - 4`; the scroll offset is clamped up when the selection is
above the window and down when it is at or past its end.  All quantities are
Python ints, so the model uses `Int`. -/

/-- The offset adjustment of `draw_files` (lines 430-433). -/
def layoutOffset (idx off mv : Int) : Int :=
  if idx < off then idx
  else if off + mv ≤ idx then idx - mv + 1
  else off

/-- The offset the loop variable holds after `draw_files` ran on state fields
`files`, `current_idx`, `offset` with screen height `hS`: the early return for
an empty listing keeps the previous offset. -/
def drawOffset (hS : Int) (files : List α) (idx off : Int) : Int :=
  if files.isEmpty then off else layoutOffset idx off (hS - 4)

/-- The click-region map built by `draw_files`: row `i + 2` of the screen is
mapped to entry index `i + offset` for each of the `k` drawn entries, where
`k` is the length of the slice `files[offset : offset + max_visible]`
(reachable states have `0 ≤ offset ≤ len(files)`, which the slice model
assumes).  The drawing loop's own `y_pos >= h - 2` break never fires because
`k ≤ h - 4`.  An empty listing produces an empty map. -/
def clickLookup (hS flen off y : Int) : Option Int :=
  if flen = 0 then none
  else
    let k := max 0 (min (off + (hS - 4)) flen - off)
    if 2 ≤ y ∧ y < 2 + k then some (y - 2 + off) else none

/-! ### The context menu (`show_context_menu`, main.py lines 89-130) -/

/-- One input read by the context-menu loop: a plain key press, a mouse event
at screen position `(my, mx)` (the `curses.KEY_MOUSE`/`getmouse` branch), or a
`curses.error` raised by a read, which the loop swallows. -/
inductive MenuInput where
  | key (c : Nat)
  | mouse (my mx : Int)
  | errEv
deriving DecidableEq

/-- Geometry of the menu window (lines 91-99): height `len(options) + 2`,
width at least 25, both clamped so the window fits the `h × w` screen. -/
def menuGeom (scrH scrW y x : Int) (options : List (String × String)) :
    Int × Int × Int × Int :=
  let mh : Int := (options.length : Int) + 2
  let mw : Int := max ((options.foldl (fun m o => max m ((o.1.data.length : Int))) 0) + 4) 25
  let y' := if y + mh > scrH then scrH - mh else y
  let x' := if x + mw > scrW then scrW - mw else x
  (y', x', mh, mw)

/-- The read loop of `show_context_menu`, over the list of inputs it will
receive.  `some r` means the loop returned `r` (where `r = none` is Python's
`None`); `none` means the inputs ran out with the menu still waiting.  Key 27
returns `None`; a mouse event outside the menu rectangle returns `None` (one
inside is ignored); a key `c` with `0 <= c - ord('1') < len(options)` returns
the action of option `c - ord('1')`; every other key is ignored. -/
def runMenu (options : List (String × α)) (my0 mx0 mh mw : Int) :
    List MenuInput → Option (Option α)
  | [] => none
  | .key c :: rest =>
    if c = 27 then some none
    else if h : 49 ≤ c ∧ c - 49 < options.length then
      some (some (options.get ⟨c - 49, h.2⟩).2)
    else runMenu options my0 mx0 mh mw rest
  | .mouse my mx :: rest =>
    if ¬(my0 ≤ my ∧ my < my0 + mh ∧ mx0 ≤ mx ∧ mx < mx0 + mw) then some none
    else runMenu options my0 mx0 mh mw rest
  | .errEv :: rest => runMenu options my0 mx0 mh mw rest

/-- The option list `show_file_context` passes to `show_context_menu`. -/
def contextOptions : List (String × String) :=
  [("1. Open with default", "open_default"),
   ("2. Open with Vim", "open_vim"),
   ("3. Rename", "rename"),
   ("4. Delete", "delete"),
   ("5. Copy Path", "copy_path"),
   ("6. Properties", "properties")]

/-! ### File-system mutations (main.py lines 611-643)

`create_file_or_dir`, `rename_file_or_dir` and `delete_file_or_dir` wrap the
OS calls in `try/except` and return a boolean; here they return `Except`,
with the call sites of `step` keeping the state unchanged on `.error` exactly
as the source keeps it when the helper returns `False`. -/

inductive FsErr where
  | notFound
  | alreadyExists
deriving DecidableEq

/-- Rename the first child called `o` to `n`, keeping its contents. -/
def replaceName : List FsTree → String → String → List FsTree
  | [], _, _ => []
  | t :: rest, o, n =>
    if t.name = o then
      (match t with
       | .file _ => .file n
       | .dir _ cs => .dir n cs) :: rest
    else t :: replaceName rest o n

/-- Replace the children of the first child called `d` (a directory). -/
def setChildren : List FsTree → String → List FsTree → List FsTree
  | [], _, _ => []
  | t :: rest, d, cs' => if t.name = d then FsTree.dir d cs' :: rest else t :: setChildren rest d cs'

/-- Remove the first child called `n`. -/
def removeChild : List FsTree → String → List FsTree
  | [], _ => []
  | t :: rest, n => if t.name = n then rest else t :: removeChild rest n

/-- Modelled from the spec: `rename_file_or_dir` calls `os.rename`, which is
outside the source; section 4.1 of the spec gives its contract as failing
with `NotFound`/`AlreadyExists`/`PermissionDenied`.  Renaming inside one
directory: a missing source name is `NotFound`, an existing target name is
`AlreadyExists`. -/
def renameInChildren (cs : List FsTree) (oldN newN : String) : Except FsErr (List FsTree) :=
  if (findChild cs oldN).isNone then .error .notFound
  else if (findChild cs newN).isSome then .error .alreadyExists
  else .ok (replaceName cs oldN newN)

/-- Rename `oldN` to `newN` inside the directory at `dirPath`. -/
def renameAt (cs : List FsTree) (dirPath : List String) (oldN newN : String) :
    Except FsErr (List FsTree) :=
  match dirPath with
  | [] => renameInChildren cs oldN newN
  | d :: rest =>
    match findChild cs d with
    | some (.dir _ cs') =>
      match renameAt cs' rest oldN newN with
      | .ok cs'' => .ok (setChildren cs d cs'')
      | .error e => .error e
    | _ => .error .notFound

/-- `delete_file_or_dir(path)` (lines 631-643) on the tree: for a directory
it runs `shutil.rmtree` (remove the whole subtree) when
`CONFIG['confirm_actions']` is set, else `os.rmdir` (which removes only an
empty directory and raises otherwise); for a file it runs `os.remove`.  Any
exception is caught and reported as failure. -/
def deleteAt (cfg : Config) (cs : List FsTree) : List String → Except Unit (List FsTree)
  | [] => .error ()
  | [n] =>
    match findChild cs n with
    | some (.dir _ sub) =>
      if cfg.confirm_actions then .ok (removeChild cs n)
      else if sub.isEmpty then .ok (removeChild cs n)
      else .error ()
    | some (.file _) => .ok (removeChild cs n)
    | none => .error ()
  | d :: rest =>
    match findChild cs d with
    | some (.dir _ cs') => (deleteAt cfg cs' rest).map (setChildren cs d)
    | _ => .error ()

/-- `create_file_or_dir(path, is_file)` (lines 611-621): `open(path, 'w')`
creates a missing file, truncates an existing file (so the listing is
unchanged) and raises on a directory; `os.mkdir` raises if the name exists. -/
def createAt (cs : List FsTree) (dirPath : List String) (nm : String) (isFile : Bool) :
    Except Unit (List FsTree) :=
  match dirPath with
  | [] =>
    if isFile then
      match findChild cs nm with
      | some (.dir _ _) => .error ()
      | some (.file _) => .ok cs
      | none => .ok (cs ++ [.file nm])
    else
      match findChild cs nm with
      | some _ => .error ()
      | none => .ok (cs ++ [.dir nm []])
  | d :: rest =>
    match findChild cs d with
    | some (.dir _ cs') => (createAt cs' rest nm isFile).map (setChildren cs d)
    | _ => .error ()

/-! ### The browser state and the event loop (`main`, main.py lines 688-911) -/

/-- One item of the `files` list: a plain name from `list_dir`, or a
`(display_path, full_path)` tuple from search (`isinstance(f, tuple)` in the
source distinguishes them). -/
inductive Entry where
  | plain (name : String)
  | located (display : List String) (full : List String)
deriving DecidableEq

/-- The absolute path of an entry of the listing of `path`
(`os.path.join(path, f)` for plain names, the stored tuple path otherwise). -/
def entryFull (path : List String) : Entry → List String
  | .plain n => path ++ [n]
  | .located _ fp => fp

/-- Model of `search_query[:-1]`. -/
def strDropLast (s : String) : String := ⟨s.data.dropLast⟩

/-- The mutable locals of `main` (plus `CONFIG`, which the `h` key toggles).
`clicked_idx` is omitted: it only drives the blink highlight.  Python floats
for `time.time()` are modelled as rationals, used only in comparisons. -/
structure BState where
  cfg : Config
  path : List String
  files : List Entry
  all_files : List Entry
  search_results : List Entry
  current_idx : Int
  offset : Int
  search_mode : Bool
  search_query : String
  last_click_time : ℚ
  last_click_idx : Int
  quitFlag : Bool
deriving DecidableEq

/-- The choices `show_context_menu` can hand back to `show_file_context`. -/
inductive MenuChoice where
  | openDefault
  | openVim
  | rename
  | delete
  | copyPath
  | properties
deriving DecidableEq

/-- Outcomes of the blocking popups an event may open: the (stripped) text of
`get_input_popup`, the boolean of `confirm_popup`, and the action chosen in
`show_context_menu` (`none` = menu cancelled). -/
structure Oracles where
  input : String
  confirm : Bool
  menu : Option MenuChoice
deriving DecidableEq

/-- A decoded mouse event: the `BUTTON*_PRESSED` bits `main` tests, the row
`y`, and `time.time()` at the event. -/
structure MouseEv where
  b4 : Bool
  b5 : Bool
  b1 : Bool
  b3 : Bool
  y : Int
  t : ℚ
deriving DecidableEq

/-- One iteration's input: a key code from `getch` or a mouse event, together
with the popup outcomes the handlers would observe. -/
inductive Event where
  | key (c : Nat) (orc : Oracles)
  | mouse (m : MouseEv) (orc : Oracles)
deriving DecidableEq

/-- Listing of the directory at `p`, as the `files = list_dir(path)` call
sites produce it. -/
def reloadFiles (cfg : Config) (fs : List FsTree) (p : List String) : List Entry :=
  (listDirAt cfg fs p).map Entry.plain

/-- The search results for query `q` from the current directory, as Entry
tuples (`search_files_recursive(path, search_query)`, `max_results`
defaulting to 100). -/
def searchToEntries (cfg : Config) (fs : List FsTree) (p : List String) (q : String) :
    List Entry :=
  (search_files_recursive cfg ((getDirChildren fs p).getD []) p q 100).map
    (fun pr => Entry.located pr.1 pr.2)

/-- Effect of `show_file_context` on the file system: the menu actions
`rename` and `delete` run their popups and mutate; every other action only
reads.  The call sites in the mouse/space branches of `main` ignore the
returned flag, so the listing is not reloaded there. -/
def menuEffect (cfg : Config) (fs : List FsTree) (fp : List String) (orc : Oracles) :
    List FsTree :=
  match orc.menu with
  | some .rename =>
    if orc.input ≠ "" then
      match renameAt fs fp.dropLast ((fp.getLast?).getD ("")) orc.input with
      | .ok fs' => fs'
      | .error _ => fs
    else fs
  | some .delete =>
    if orc.confirm then
      match deleteAt cfg fs fp with
      | .ok fs' => fs'
      | .error _ => fs
    else fs
  | _ => fs

/-- The entry under the cursor (`files[current_idx]`); the call sites guard
`files and current_idx < len(files)` first, so `none` is unreachable there
and handled as a no-op. -/
def curEntry (s : BState) : Option Entry := s.files.get? s.current_idx.toNat

/-- Search-mode key dispatch (lines 778-807). -/
def searchModeKey (fs : List FsTree) (s : BState) (c : Nat) : BState :=
  if c = 263 ∨ c = 127 ∨ c = 8 ∨ c = 330 then  -- KEY_BACKSPACE, 127, 8, KEY_DC
    if s.search_query.data = [] then s
    else
      let q := strDropLast s.search_query
      if q.data = [] then
        { s with search_query := q, files := s.all_files, search_results := [],
                 current_idx := 0, offset := 0 }
      else
        let res := searchToEntries s.cfg fs s.path q
        { s with search_query := q, search_results := res, files := res,
                 current_idx := 0, offset := 0 }
  else if c = 27 then  -- Escape
    { s with search_mode := false, search_query := "", files := s.all_files,
             current_idx := 0, offset := 0 }
  else if c = 343 ∨ c = 10 ∨ c = 13 then  -- KEY_ENTER, \n, \r
    { s with search_mode := false,
             files := if s.search_results = [] then s.files else s.search_results,
             current_idx := 0, offset := 0 }
  else if 32 ≤ c ∧ c ≤ 126 then
    let q := s.search_query.push (Char.ofNat c)
    let res := searchToEntries s.cfg fs s.path q
    { s with search_query := q, search_results := res, files := res,
             current_idx := 0, offset := 0 }
  else s

/-- The `' '` key (lines 811-817): context menu on the current entry; the
return value of `show_file_context` is discarded, so only `fs` can change. -/
def contextKey (fs : List FsTree) (s : BState) (orc : Oracles) : BState × List FsTree :=
  if s.files ≠ [] ∧ s.current_idx < (s.files.length : Int) then
    match curEntry s with
    | some f => (s, menuEffect s.cfg fs (entryFull s.path f) orc)
    | none => (s, fs)
  else (s, fs)

/-- The `b` key (lines 825-831). -/
def parentKey (fs : List FsTree) (s : BState) : BState :=
  let newPath := s.path.dropLast
  if (getDirChildren fs newPath).isSome ∧ newPath ≠ s.path then
    let files' := reloadFiles s.cfg fs newPath
    { s with path := newPath, files := files', all_files := files',
             current_idx := 0, offset := 0 }
  else s

/-- The `r` key (lines 832-835). -/
def refreshKey (fs : List FsTree) (s : BState) : BState :=
  let files' := reloadFiles s.cfg fs s.path
  { s with files := files', all_files := files',
           current_idx := if files' = [] then 0
             else min s.current_idx ((files'.length : Int) - 1) }

/-- The `h` key (lines 843-848). -/
def toggleHiddenKey (fs : List FsTree) (s : BState) : BState :=
  let cfg' := { s.cfg with show_hidden := !s.cfg.show_hidden }
  let files' := reloadFiles cfg' fs s.path
  { s with cfg := cfg', files := files', all_files := files',
           current_idx := if files' = [] then 0
             else min s.current_idx ((files'.length : Int) - 1),
           offset := 0 }

/-- `KEY_UP` / `k` (lines 849-851). -/
def upKey (s : BState) : BState :=
  if s.files = [] then s else { s with current_idx := max 0 (s.current_idx - 1) }

/-- `KEY_DOWN` / `j` (lines 852-854). -/
def downKey (s : BState) : BState :=
  if s.files = [] then s
  else { s with current_idx := min (s.current_idx + 1) ((s.files.length : Int) - 1) }

/-- Enter (lines 855-866): enter a directory. -/
def enterKey (fs : List FsTree) (s : BState) : BState :=
  if s.files ≠ [] ∧ s.current_idx < (s.files.length : Int) then
    match curEntry s with
    | some f =>
      let fp := entryFull s.path f
      if isDirAtPath fs fp then
        let files' := reloadFiles s.cfg fs fp
        { s with path := fp, files := files', all_files := files',
                 current_idx := 0, offset := 0 }
      else s
    | none => s
  else s

/-- The `n` / `m` keys (lines 867-881): create a file or a directory and
reload on success; the selection is not re-clamped. -/
def createKey (fs : List FsTree) (s : BState) (orc : Oracles) (isFile : Bool) :
    BState × List FsTree :=
  if orc.input ≠ "" then
    match createAt fs s.path orc.input isFile with
    | .ok fs' =>
      let files' := reloadFiles s.cfg fs' s.path
      ({ s with files := files', all_files := files' }, fs')
    | .error _ => (s, fs)
  else (s, fs)

/-- `KEY_F2` (lines 883-895): rename the current entry and reload on success;
the selection is not re-clamped. -/
def renameKey (fs : List FsTree) (s : BState) (orc : Oracles) : BState × List FsTree :=
  if s.files ≠ [] ∧ s.current_idx < (s.files.length : Int) then
    match curEntry s with
    | some f =>
      let fp := entryFull s.path f
      if orc.input ≠ "" then
        match renameAt fs fp.dropLast ((fp.getLast?).getD ("")) orc.input with
        | .ok fs' =>
          let files' := reloadFiles s.cfg fs' s.path
          ({ s with files := files', all_files := files' }, fs')
        | .error _ => (s, fs)
      else (s, fs)
    | none => (s, fs)
  else (s, fs)

/-- The `d` key (lines 897-908): confirm, delete, reload, re-clamp. -/
def deleteKey (fs : List FsTree) (s : BState) (orc : Oracles) : BState × List FsTree :=
  if s.files ≠ [] ∧ s.current_idx < (s.files.length : Int) then
    match curEntry s with
    | some f =>
      let fp := entryFull s.path f
      if orc.confirm then
        match deleteAt s.cfg fs fp with
        | .ok fs' =>
          let files' := reloadFiles s.cfg fs' s.path
          ({ s with files := files', all_files := files',
                    current_idx := if files' = [] then 0
                      else min s.current_idx ((files'.length : Int) - 1) }, fs')
        | .error _ => (s, fs)
      else (s, fs)
    | none => (s, fs)
  else (s, fs)

/-- Normal-mode key dispatch (lines 808-908), in the source's `elif` order.
`o` (open external), `?` (help popup) and unknown keys leave the state
unchanged. -/
def normalKey (fs : List FsTree) (s : BState) (c : Nat) (orc : Oracles) :
    BState × List FsTree :=
  if c = 113 then ({ s with quitFlag := true }, fs)
  else if c = 32 then contextKey fs s orc
  else if c = 47 then
    ({ s with search_mode := true, search_query := "", all_files := s.files }, fs)
  else if c = 63 then (s, fs)
  else if c = 98 then (parentKey fs s, fs)
  else if c = 114 then (refreshKey fs s, fs)
  else if c = 111 then (s, fs)
  else if c = 104 then (toggleHiddenKey fs s, fs)
  else if c = 259 ∨ c = 107 then (upKey s, fs)
  else if c = 258 ∨ c = 106 then (downKey s, fs)
  else if c = 343 ∨ c = 10 ∨ c = 13 then (enterKey fs s, fs)
  else if c = 110 then createKey fs s orc true
  else if c = 109 then createKey fs s orc false
  else if c = 266 then renameKey fs s orc
  else if c = 100 then deleteKey fs s orc
  else (s, fs)

/-- Mouse dispatch (lines 726-776).  The wheel moves the selection by 3; a
left press selects the clicked row and, inside the 0.5 s double-click window
on the same row, activates it; a right press selects and opens the context
menu. -/
def mouseStep (hS : Int) (fs : List FsTree) (s : BState) (m : MouseEv) (orc : Oracles) :
    BState × List FsTree :=
  if m.b4 then ({ s with current_idx := max 0 (s.current_idx - 3) }, fs)
  else if m.b5 then
    (if s.files = [] then s
     else { s with current_idx := min ((s.files.length : Int) - 1) (s.current_idx + 3) }, fs)
  else if m.b1 ∧ s.search_mode = false then
    match clickLookup hS (s.files.length : Int) s.offset m.y with
    | none => (s, fs)
    | some ci =>
      if m.t - s.last_click_time < 1/2 ∧ ci = s.last_click_idx then
        if s.files ≠ [] ∧ ci < (s.files.length : Int) then
          match s.files.get? ci.toNat with
          | some f =>
            let fp := entryFull s.path f
            if isDirAtPath fs fp then
              let files' := reloadFiles s.cfg fs fp
              ({ s with path := fp, files := files', all_files := files',
                        current_idx := 0, offset := 0,
                        last_click_time := m.t, last_click_idx := ci }, fs)
            else
              ({ s with current_idx := ci, last_click_time := m.t, last_click_idx := ci }, fs)
          | none =>
            ({ s with current_idx := ci, last_click_time := m.t, last_click_idx := ci }, fs)
        else ({ s with current_idx := ci, last_click_time := m.t, last_click_idx := ci }, fs)
      else ({ s with current_idx := ci, last_click_time := m.t, last_click_idx := ci }, fs)
  else if m.b3 ∧ s.search_mode = false then
    match clickLookup hS (s.files.length : Int) s.offset m.y with
    | none => (s, fs)
    | some ci =>
      if s.files ≠ [] ∧ ci < (s.files.length : Int) then
        match s.files.get? ci.toNat with
        | some f => ({ s with current_idx := ci }, menuEffect s.cfg fs (entryFull s.path f) orc)
        | none => ({ s with current_idx := ci }, fs)
      else ({ s with current_idx := ci }, fs)
  else (s, fs)

/-- The state as it stands after the draw phase of one iteration: `offset`
holds what `draw_files` returned; nothing else changes. -/
def drawnState (hS : Int) (s0 : BState) : BState :=
  { s0 with offset := drawOffset hS s0.files s0.current_idx s0.offset }

/-- One iteration of the event loop of `main` on screen height `hS`: the draw
phase updates `offset` (and builds the click map `mouseStep` consults), then
the event is dispatched. -/
def step (hS : Int) (fs : List FsTree) (s0 : BState) : Event → BState × List FsTree
  | .mouse m orc => mouseStep hS fs (drawnState hS s0) m orc
  | .key c orc =>
    if (drawnState hS s0).search_mode then (searchModeKey fs (drawnState hS s0) c, fs)
    else normalKey fs (drawnState hS s0) c orc

/-- Folding `step` over a list of events. -/
def steps (hS : Int) (es : List Event) (p : BState × List FsTree) : BState × List FsTree :=
  es.foldl (fun q e => step hS q.2 q.1 e) p

/-- The read `current_file = files[current_idx] if files else ""` at the top
of every iteration (line 717): `none` models the `IndexError` it raises when
the selection is out of range of a non-empty listing. -/
def statusCurrent (s : BState) : Option Entry :=
  if s.files = [] then some (Entry.plain (""))
  else s.files.get? s.current_idx.toNat

/-! ### Helper lemmas about children lookup -/

theorem findChild_eq_none_of_not_mem (cs : List FsTree) (n : String)
    (h : n ∉ cs.map FsTree.name) : findChild cs n = none := by
  induction cs with
  | nil => rfl
  | cons t rest ih =>
    simp only [List.map_cons, List.mem_cons, not_or] at h
    rw [findChild, if_neg (fun he => h.1 he.symm)]
    exact ih h.2

theorem findChild_removeChild_self (cs : List FsTree) (n : String)
    (h : (cs.map FsTree.name).Nodup) : findChild (removeChild cs n) n = none := by
  induction cs with
  | nil => rfl
  | cons t rest ih =>
    simp only [List.map_cons, List.nodup_cons] at h
    rw [removeChild]
    by_cases he : t.name = n
    · subst he
      rw [if_pos rfl]
      exact findChild_eq_none_of_not_mem rest t.name h.1
    · rw [if_neg he, findChild, if_neg he]
      exact ih h.2

theorem getNodeAt_cons_none (cs : List FsTree) (n : String) (rest : List String)
    (h : findChild cs n = none) : getNodeAt cs (n :: rest) = none := by
  cases rest with
  | nil => rw [getNodeAt, h]
  | cons d tl => simp [getNodeAt, h]

/-! ### Claim C4: the viewport invariant of the list layout -/

/-- Claim C4, counterexample: with viewport height 0 (a terminal of height
4, since `max_visible = h - 4`) the claim's own hypothesis
`len(entries) >= viewport_height` holds for the empty listing, yet the
computed offset violates `offset <= selection < offset + viewport_height`:
`layoutOffset 0 0 0 = 1`. -/
theorem c4_layout_counterexample :
    ((0 : Int) ≤ (List.length ([] : List Entry) : Int)) ∧
    ¬(layoutOffset 0 0 0 ≤ 0 ∧ (0 : Int) < layoutOffset 0 0 0 + 0) := by
  decide

/-- Claim C4 (amended: the viewport height must be at least 1; the claim's
hypothesis `len(entries) >= viewport_height` is kept but plays no role): the
offset computed by `draw_files` satisfies
`offset <= selection < offset + viewport_height`, and it is the minimal
adjustment — clamped up to the selection when the selection lies above the
previous window, clamped down to `selection - height + 1` when it lies at or
below the window end, and left unchanged otherwise. -/
theorem c4_layout_invariant (entries : List Entry) (idx off mv : Int)
    (hlen : mv ≤ (entries.length : Int)) (hmv : 1 ≤ mv) :
    (layoutOffset idx off mv ≤ idx ∧ idx < layoutOffset idx off mv + mv)
    ∧ (idx < off → layoutOffset idx off mv = idx)
    ∧ (off + mv ≤ idx → layoutOffset idx off mv = idx - mv + 1)
    ∧ (off ≤ idx ∧ idx < off + mv → layoutOffset idx off mv = off) := by
  unfold layoutOffset
  split
  · omega
  · split
    · omega
    · omega

/-- Witness for C4's amended theorem at a concrete input. -/
theorem c4_layout_invariant_witness :
    layoutOffset 5 0 1 ≤ 5 ∧ (5 : Int) < layoutOffset 5 0 1 + 1 :=
  (c4_layout_invariant [Entry.plain ("x")] 5 0 1 (by decide) (by decide)).1

/-! ### Claim C9: the numbered action menu -/

/-- Claim C9, counterexample: with the program's six context-menu options,
pressing the numeric key `'0'` (code 48), which is outside the option range,
does not close the menu with no action (`some none` would be Python's
`return None`); the loop ignores the key and keeps waiting (`none`). -/
theorem c9_menu_counterexample :
    runMenu contextOptions 0 0 8 25 [MenuInput.key 48] = none ∧
    runMenu contextOptions 0 0 8 25 [MenuInput.key 48] ≠ some none := by
  decide

/-- Claim C9 (amended): the menu returns the option whose index key was
pressed when the digit is in range, returns none (closes with no action) on
the cancel key Escape, and ignores a numeric key outside the option range,
continuing to wait for input. -/
theorem c9_menu_behavior {α : Type} (options : List (String × α)) (my0 mx0 mh mw : Int)
    (rest : List MenuInput) (c : Nat) :
    (runMenu options my0 mx0 mh mw (MenuInput.key 27 :: rest) = some none)
    ∧ (∀ h : 49 ≤ c ∧ c - 49 < options.length,
        runMenu options my0 mx0 mh mw (MenuInput.key c :: rest) =
          some (some (options.get ⟨c - 49, h.2⟩).2))
    ∧ (48 ≤ c → c ≤ 57 → ¬(49 ≤ c ∧ c - 49 < options.length) →
        runMenu options my0 mx0 mh mw (MenuInput.key c :: rest) =
          runMenu options my0 mx0 mh mw rest) := by
  refine ⟨?_, ?_, ?_⟩
  · rw [runMenu]
    simp
  · intro h
    rw [runMenu, if_neg (by omega : ¬(c = 27)), dif_pos h]
  · intro h1 h2 h3
    rw [runMenu, if_neg (by omega : ¬(c = 27)), dif_neg h3]

/-- Witness for C9's amended theorem: pressing `'2'` (code 50) on the
program's context menu returns the `open_vim` action. -/
theorem c9_menu_behavior_witness :
    runMenu contextOptions 0 0 8 25 [MenuInput.key 50] = some (some ("open_vim")) :=
  (c9_menu_behavior contextOptions 0 0 8 25 [] 50).2.1 (by decide)

/-! ### Claim C6: delete -/

/-- The configuration with `confirm_actions` cleared (never reachable at
runtime — no key toggles it — but a configuration nonetheless). -/
def noConfirmConfig : Config := { CONFIG with confirm_actions := false }

/-- Claim C6, counterexample: deleting a non-empty directory is claimed to
remove it recursively regardless of configuration, but with
`confirm_actions = False` the code runs `os.rmdir`, which fails on a
non-empty directory, so the delete reports failure and removes nothing;
under the default configuration the same delete succeeds. -/
theorem c6_delete_counterexample :
    (deleteAt noConfirmConfig [FsTree.dir ("d") [FsTree.file ("x")]] [("d")]).isOk = false ∧
    (deleteAt CONFIG [FsTree.dir ("d") [FsTree.file ("x")]] [("d")]).isOk = true := by
  decide

/-- Claim C6 (amended: recursive removal holds when `confirm_actions` is set
— which it always is at runtime, the flag is never changed — while with the
flag cleared a non-empty directory fails and nothing is removed): deleting a
directory with `confirm_actions` set removes it with its whole subtree (no
path through it remains resolvable), deleting a plain file removes it
directly, a delete with `confirm_actions` cleared fails on a non-empty
directory, and every failure is an error result of the operation rather than
an exception. -/
theorem c6_delete_behavior (cfg : Config) (cs : List FsTree) (n nm : String) :
    (∀ sub, cfg.confirm_actions = true → findChild cs n = some (FsTree.dir nm sub) →
       deleteAt cfg cs [n] = .ok (removeChild cs n))
    ∧ (findChild cs n = some (FsTree.file nm) →
       deleteAt cfg cs [n] = .ok (removeChild cs n))
    ∧ (∀ sub, (cs.map FsTree.name).Nodup → findChild cs n = some (FsTree.dir nm sub) →
       ∀ rest, getNodeAt (removeChild cs n) (n :: rest) = none)
    ∧ (∀ sub, cfg.confirm_actions = false → findChild cs n = some (FsTree.dir nm sub) →
       sub ≠ [] → deleteAt cfg cs [n] = .error ()) := by
  refine ⟨?_, ?_, ?_, ?_⟩
  · intro sub hconf hfind
    simp [deleteAt, hfind, hconf]
  · intro hfind
    simp [deleteAt, hfind]
  · intro sub hnd hfind rest
    exact getNodeAt_cons_none _ _ _ (findChild_removeChild_self cs n hnd)
  · intro sub hconf hfind hne
    simp [deleteAt, hfind, hconf, List.isEmpty_iff, hne]

/-- Witness for C6's amended theorem at a concrete tree. -/
theorem c6_delete_behavior_witness :
    deleteAt CONFIG [FsTree.dir ("d") [FsTree.file ("x")]] [("d")] =
      .ok (removeChild [FsTree.dir ("d") [FsTree.file ("x")]] ("d")) ∧
    getNodeAt (removeChild [FsTree.dir ("d") [FsTree.file ("x")]] ("d")) [("d")] = none :=
  ⟨(c6_delete_behavior CONFIG [FsTree.dir ("d") [FsTree.file ("x")]] ("d") ("d")).1
      [FsTree.file ("x")] rfl (by simp [findChild, FsTree.name]),
   (c6_delete_behavior CONFIG [FsTree.dir ("d") [FsTree.file ("x")]] ("d") ("d")).2.2.1
      [FsTree.file ("x")] (by decide) (by simp [findChild, FsTree.name]) []⟩

/-! ### Claim C1: the selection-index invariant -/

/-- The file system for the C1 failing input: the current directory holds a
subdirectory `sub` and a file `a.txt`. -/
def c1Fs : List FsTree := [FsTree.dir ("sub") [], FsTree.file ("a.txt")]

/-- The browser state for the C1 failing input: default configuration,
listing `["sub", "a.txt"]`, selection on `a.txt` (index 1). -/
def c1State : BState :=
  { cfg := CONFIG
    path := []
    files := [Entry.plain ("sub"), Entry.plain ("a.txt")]
    all_files := [Entry.plain ("sub"), Entry.plain ("a.txt")]
    search_results := []
    current_idx := 1
    offset := 0
    search_mode := false
    search_query := ""
    last_click_time := 0
    last_click_idx := -1
    quitFlag := false }

/-- The C1 failing event: `F2` (rename) with the popup answering `.a.txt`. -/
def c1Event : Event := Event.key 266 ⟨".a.txt", false, none⟩

/-- Claim C1 is violated by the code (code bug): renaming the selected entry
`a.txt` to the hidden name `.a.txt` (with `show_hidden` off) reloads a
listing of length 1 while leaving `current_idx = 1`, so after this rename
event the selection index is not within `[0, len(entries)-1]`; the
`files[current_idx]` read at the top of the next iteration (main.py line
717) then raises `IndexError` (modelled by `statusCurrent = none`). -/
theorem c1_rename_selection_out_of_range :
    (step 24 c1Fs c1State c1Event).1.current_idx = 1 ∧
    (step 24 c1Fs c1State c1Event).1.files.length = 1 ∧
    ¬((step 24 c1Fs c1State c1Event).1.current_idx ≤
        ((step 24 c1Fs c1State c1Event).1.files.length : Int) - 1) ∧
    statusCurrent (step 24 c1Fs c1State c1Event).1 = none := by
  decide

/-! ### Properties of the recursive search -/

/-- Model of `os.path.basename` on a component path. -/
def basenameOf (p : List String) : String := (p.getLast?).getD ("")

/-- What every search result satisfies (for a search rooted at `root` with
lowered query `ql`): the absolute path is the root joined with the display
path, the basename of the display path matches the query, and with hidden
files off no component of the display path is a dot name. -/
def GoodRes (cfg : Config) (ql : List Char) (root : List String) (b : SResult) : Prop :=
  b.2 = root ++ b.1
  ∧ pyContains ql (pyLower (basenameOf b.1)) = true
  ∧ (cfg.show_hidden = false → ∀ x ∈ b.1, pyStartsDot x = false)

/-- Ordering relation of the result list: a pair that comes later is never a
proper display-path prefix of an earlier pair — i.e. a matching directory is
recorded before everything found inside it. -/
def notDescBefore (a b : SResult) : Prop := ¬(b.1 <+: a.1 ∧ b.1 ≠ a.1)

theorem searchGo_nil (cfg : Config) (maxR : Nat) (ql : List Char)
    (cur rel : List String) (depth : Nat) (acc : List SResult) :
    searchGo cfg maxR ql [] cur rel depth acc = acc := by
  simp [searchGo]

theorem searchGo_cons_stop {cfg : Config} {maxR : Nat} {ql : List Char}
    {t : FsTree} {rest : List FsTree} {cur rel : List String} {depth : Nat}
    {acc : List SResult} (h : maxR ≤ acc.length) :
    searchGo cfg maxR ql (t :: rest) cur rel depth acc = acc := by
  rw [searchGo]
  simp [h]

theorem searchGo_cons_hidden {cfg : Config} {maxR : Nat} {ql : List Char}
    {t : FsTree} {rest : List FsTree} {cur rel : List String} {depth : Nat}
    {acc : List SResult} (h1 : ¬ maxR ≤ acc.length)
    (h2 : (!cfg.show_hidden && pyStartsDot t.name) = true) :
    searchGo cfg maxR ql (t :: rest) cur rel depth acc =
      searchGo cfg maxR ql rest cur rel depth acc := by
  rw [searchGo]
  simp [h1, h2]

theorem searchGo_cons_file {cfg : Config} {maxR : Nat} {ql : List Char}
    {n : String} {rest : List FsTree} {cur rel : List String} {depth : Nat}
    {acc : List SResult} (h1 : ¬ maxR ≤ acc.length)
    (h2 : (!cfg.show_hidden && pyStartsDot n) = false) :
    searchGo cfg maxR ql (FsTree.file n :: rest) cur rel depth acc =
      searchGo cfg maxR ql rest cur rel depth
        (if pyContains ql (pyLower n) then acc ++ [(rel ++ [n], cur ++ [n])] else acc) := by
  rw [searchGo]
  simp [h1, FsTree.name, h2]

theorem searchGo_cons_dir {cfg : Config} {maxR : Nat} {ql : List Char}
    {n : String} {children : List FsTree} {rest : List FsTree}
    {cur rel : List String} {depth : Nat} {acc : List SResult}
    (h1 : ¬ maxR ≤ acc.length) (h2 : (!cfg.show_hidden && pyStartsDot n) = false) :
    searchGo cfg maxR ql (FsTree.dir n children :: rest) cur rel depth acc =
      searchGo cfg maxR ql rest cur rel depth
        (if maxR ≤ (if pyContains ql (pyLower n) then
              acc ++ [(rel ++ [n], cur ++ [n])] else acc).length
            ∨ cfg.search_max_depth < depth + 1 then
          (if pyContains ql (pyLower n) then acc ++ [(rel ++ [n], cur ++ [n])] else acc)
         else searchGo cfg maxR ql children (cur ++ [n]) (rel ++ [n]) (depth + 1)
          (if pyContains ql (pyLower n) then acc ++ [(rel ++ [n], cur ++ [n])] else acc)) := by
  rw [searchGo]
  simp [h1, FsTree.name, h2]

theorem searchGo_length (cfg : Config) (maxR : Nat) (ql : List Char) (cs : List FsTree) :
    ∀ cur rel depth acc, acc.length ≤ maxR →
      (searchGo cfg maxR ql cs cur rel depth acc).length ≤ maxR := by
  induction cs using forest_ind with
  | hnil =>
    intro cur rel depth acc h
    rw [searchGo_nil]
    exact h
  | hcons t rest ihc ihr =>
    intro cur rel depth acc hacc
    by_cases h1 : maxR ≤ acc.length
    · rw [searchGo_cons_stop h1]; exact hacc
    · cases t with
      | file n =>
        by_cases h2 : (!cfg.show_hidden && pyStartsDot n) = true
        · rw [searchGo_cons_hidden h1 h2]
          exact ihr cur rel depth acc hacc
        · have h2' : (!cfg.show_hidden && pyStartsDot n) = false := by
            revert h2; cases (!cfg.show_hidden && pyStartsDot n) <;> simp
          rw [searchGo_cons_file h1 h2']
          apply ihr
          split
          · simp only [List.length_append, List.length_cons, List.length_nil]; omega
          · exact hacc
      | dir n children =>
        simp only [childrenList] at ihc
        by_cases h2 : (!cfg.show_hidden && pyStartsDot n) = true
        · rw [searchGo_cons_hidden h1 h2]
          exact ihr cur rel depth acc hacc
        · have h2' : (!cfg.show_hidden && pyStartsDot n) = false := by
            revert h2; cases (!cfg.show_hidden && pyStartsDot n) <;> simp
          have hm : (if pyContains ql (pyLower n) then
              acc ++ [(rel ++ [n], cur ++ [n])] else acc).length ≤ maxR := by
            split
            · simp only [List.length_append, List.length_cons, List.length_nil]; omega
            · exact hacc
          rw [searchGo_cons_dir h1 h2']
          apply ihr
          by_cases hg : maxR ≤ (if pyContains ql (pyLower n) then
              acc ++ [(rel ++ [n], cur ++ [n])] else acc).length
              ∨ cfg.search_max_depth < depth + 1
          · rw [if_pos hg]; exact hm
          · rw [if_neg hg]; exact ihc _ _ _ _ hm

theorem searchGo_good (cfg : Config) (maxR : Nat) (ql : List Char) (root : List String)
    (cs : List FsTree) :
    ∀ cur rel depth acc,
      cur = root ++ rel →
      (cfg.show_hidden = false → ∀ x ∈ rel, pyStartsDot x = false) →
      (∀ a ∈ acc, GoodRes cfg ql root a) →
      ∀ b ∈ searchGo cfg maxR ql cs cur rel depth acc, GoodRes cfg ql root b := by
  have hMatch : ∀ (n : String) (cur rel : List String) (acc : List SResult),
      cur = root ++ rel →
      (cfg.show_hidden = false → ∀ x ∈ rel, pyStartsDot x = false) →
      (∀ a ∈ acc, GoodRes cfg ql root a) →
      (cfg.show_hidden = false → pyStartsDot n = false) →
      ∀ a ∈ (if pyContains ql (pyLower n) then
          acc ++ [(rel ++ [n], cur ++ [n])] else acc), GoodRes cfg ql root a := by
    intro n cur rel acc hcur hrel hacc hdot a ha
    by_cases hm : pyContains ql (pyLower n) = true
    · rw [if_pos hm] at ha
      rcases List.mem_append.mp ha with ha | ha
      · exact hacc a ha
      · have heq : a = (rel ++ [n], cur ++ [n]) := by simpa using ha
        subst heq
        refine ⟨?_, ?_, ?_⟩
        · show cur ++ [n] = root ++ (rel ++ [n])
          rw [hcur, List.append_assoc]
        · show pyContains ql (pyLower (basenameOf (rel ++ [n]))) = true
          unfold basenameOf
          rw [List.getLast?_concat]
          simpa using hm
        · intro hsh x hx
          rcases List.mem_append.mp hx with hx | hx
          · exact hrel hsh x hx
          · have hxn : x = n := by simpa using hx
            subst hxn
            exact hdot hsh
    · rw [if_neg hm] at ha
      exact hacc a ha
  induction cs using forest_ind with
  | hnil =>
    intro cur rel depth acc _ _ hacc b hb
    rw [searchGo_nil] at hb
    exact hacc b hb
  | hcons t rest ihc ihr =>
    intro cur rel depth acc hcur hrel hacc b hb
    by_cases h1 : maxR ≤ acc.length
    · rw [searchGo_cons_stop h1] at hb
      exact hacc b hb
    · cases t with
      | file n =>
        by_cases h2 : (!cfg.show_hidden && pyStartsDot n) = true
        · rw [searchGo_cons_hidden h1 h2] at hb
          exact ihr cur rel depth acc hcur hrel hacc b hb
        · have h2' : (!cfg.show_hidden && pyStartsDot n) = false := by
            revert h2; cases (!cfg.show_hidden && pyStartsDot n) <;> simp
          have hdot : cfg.show_hidden = false → pyStartsDot n = false := by
            intro hsh
            simpa [hsh] using h2'
          rw [searchGo_cons_file h1 h2'] at hb
          exact ihr cur rel depth _ hcur hrel (hMatch n cur rel acc hcur hrel hacc hdot) b hb
      | dir n children =>
        simp only [childrenList] at ihc
        by_cases h2 : (!cfg.show_hidden && pyStartsDot n) = true
        · rw [searchGo_cons_hidden h1 h2] at hb
          exact ihr cur rel depth acc hcur hrel hacc b hb
        · have h2' : (!cfg.show_hidden && pyStartsDot n) = false := by
            revert h2; cases (!cfg.show_hidden && pyStartsDot n) <;> simp
          have hdot : cfg.show_hidden = false → pyStartsDot n = false := by
            intro hsh
            simpa [hsh] using h2'
          have hcur' : cur ++ [n] = root ++ (rel ++ [n]) := by
            rw [hcur, List.append_assoc]
          have hrel' : cfg.show_hidden = false → ∀ x ∈ rel ++ [n], pyStartsDot x = false := by
            intro hsh x hx
            rcases List.mem_append.mp hx with hx | hx
            · exact hrel hsh x hx
            · have hxn : x = n := by simpa using hx
              subst hxn
              exact hdot hsh
          rw [searchGo_cons_dir h1 h2'] at hb
          refine ihr cur rel depth _ hcur hrel ?_ b hb
          intro a ha
          by_cases hg : maxR ≤ (if pyContains ql (pyLower n) then
              acc ++ [(rel ++ [n], cur ++ [n])] else acc).length
              ∨ cfg.search_max_depth < depth + 1
          · rw [if_pos hg] at ha
            exact hMatch n cur rel acc hcur hrel hacc hdot a ha
          · rw [if_neg hg] at ha
            exact ihc (cur ++ [n]) (rel ++ [n]) (depth + 1) _ hcur' hrel'
              (hMatch n cur rel acc hcur hrel hacc hdot) a ha

theorem pref_append_singleton {rel : List String} {m n : String} {s : List String}
    (h : (rel ++ [m]) <+: (rel ++ n :: s)) : m = n := by
  rw [List.prefix_append_right_inj] at h
  exact (List.cons_prefix_cons.mp h).1

theorem base_of_pref_append_singleton {rel : List String} {n : String} {a : List String}
    (h : (rel ++ [n]) <+: a) : rel <+: a :=
  (List.prefix_append rel [n]).trans h

theorem not_pref_self_append_singleton (rel : List String) (n : String) :
    ¬ ((rel ++ [n]) <+: rel) := by
  intro h
  have := h.length_le
  simp only [List.length_append, List.length_cons, List.length_nil] at this
  omega

theorem searchGo_new_pairs (cfg : Config) (maxR : Nat) (ql : List Char) (cs : List FsTree) :
    ∀ cur rel depth acc, ∀ b ∈ searchGo cfg maxR ql cs cur rel depth acc,
      b ∈ acc ∨ ∃ n, n ∈ cs.map FsTree.name ∧ (rel ++ [n]) <+: b.1 := by
  induction cs using forest_ind with
  | hnil =>
    intro cur rel depth acc b hb
    rw [searchGo_nil] at hb
    exact Or.inl hb
  | hcons t rest ihc ihr =>
    intro cur rel depth acc b hb
    by_cases h1 : maxR ≤ acc.length
    · rw [searchGo_cons_stop h1] at hb
      exact Or.inl hb
    · have hMA : ∀ n : String, b ∈ (if pyContains ql (pyLower n) then
          acc ++ [(rel ++ [n], cur ++ [n])] else acc) →
          b ∈ acc ∨ (rel ++ [n]) <+: b.1 := by
        intro n hb'
        by_cases hm : pyContains ql (pyLower n) = true
        · rw [if_pos hm] at hb'
          rcases List.mem_append.mp hb' with hb' | hb'
          · exact Or.inl hb'
          · have heq : b = (rel ++ [n], cur ++ [n]) := by simpa using hb'
            right
            rw [heq]
        · rw [if_neg hm] at hb'
          exact Or.inl hb'
      cases t with
      | file n =>
        by_cases h2 : (!cfg.show_hidden && pyStartsDot n) = true
        · rw [searchGo_cons_hidden h1 h2] at hb
          rcases ihr cur rel depth acc b hb with hb' | ⟨m, hm1, hm2⟩
          · exact Or.inl hb'
          · exact Or.inr ⟨m, by simp only [List.map_cons]; exact List.mem_cons_of_mem _ hm1, hm2⟩
        · have h2' : (!cfg.show_hidden && pyStartsDot n) = false := by
            revert h2; cases (!cfg.show_hidden && pyStartsDot n) <;> simp
          rw [searchGo_cons_file h1 h2'] at hb
          rcases ihr cur rel depth _ b hb with hb' | ⟨m, hm1, hm2⟩
          · rcases hMA n hb' with hb'' | hp
            · exact Or.inl hb''
            · exact Or.inr ⟨n, by simp [FsTree.name], hp⟩
          · exact Or.inr ⟨m, by simp only [List.map_cons]; exact List.mem_cons_of_mem _ hm1, hm2⟩
      | dir n children =>
        simp only [childrenList] at ihc
        by_cases h2 : (!cfg.show_hidden && pyStartsDot n) = true
        · rw [searchGo_cons_hidden h1 h2] at hb
          rcases ihr cur rel depth acc b hb with hb' | ⟨m, hm1, hm2⟩
          · exact Or.inl hb'
          · exact Or.inr ⟨m, by simp only [List.map_cons]; exact List.mem_cons_of_mem _ hm1, hm2⟩
        · have h2' : (!cfg.show_hidden && pyStartsDot n) = false := by
            revert h2; cases (!cfg.show_hidden && pyStartsDot n) <;> simp
          rw [searchGo_cons_dir h1 h2'] at hb
          rcases ihr cur rel depth _ b hb with hb' | ⟨m, hm1, hm2⟩
          · by_cases hg : maxR ≤ (if pyContains ql (pyLower n) then
                acc ++ [(rel ++ [n], cur ++ [n])] else acc).length
                ∨ cfg.search_max_depth < depth + 1
            · rw [if_pos hg] at hb'
              rcases hMA n hb' with hb'' | hp
              · exact Or.inl hb''
              · exact Or.inr ⟨n, by simp [FsTree.name], hp⟩
            · rw [if_neg hg] at hb'
              rcases ihc (cur ++ [n]) (rel ++ [n]) (depth + 1) _ b hb' with hb'' | ⟨m2, _, hm2'⟩
              · rcases hMA n hb'' with hb3 | hp
                · exact Or.inl hb3
                · exact Or.inr ⟨n, by simp [FsTree.name], hp⟩
              · refine Or.inr ⟨n, by simp [FsTree.name], ?_⟩
                exact (List.prefix_append (rel ++ [n]) [m2]).trans hm2'
          · exact Or.inr ⟨m, by simp only [List.map_cons]; exact List.mem_cons_of_mem _ hm1, hm2⟩

theorem searchGo_ordered (cfg : Config) (maxR : Nat) (ql : List Char) (cs : List FsTree) :
    ∀ cur rel depth acc,
      wfForest cs = true →
      List.Pairwise notDescBefore acc →
      (∀ a ∈ acc, ∀ n, n ∈ cs.map FsTree.name → ¬ ((rel ++ [n]) <+: a.1)) →
      List.Pairwise notDescBefore (searchGo cfg maxR ql cs cur rel depth acc) := by
  induction cs using forest_ind with
  | hnil =>
    intro cur rel depth acc _ hpair _
    rw [searchGo_nil]
    exact hpair
  | hcons t rest ihc ihr =>
    intro cur rel depth acc hwf hpair hout
    rw [wfForest] at hwf
    simp only [Bool.and_eq_true, Bool.not_eq_true'] at hwf
    obtain ⟨⟨hwfc, hnc⟩, hwfr⟩ := hwf
    have hnmem : t.name ∉ rest.map FsTree.name := by
      simpa using hnc
    by_cases h1 : maxR ≤ acc.length
    · rw [searchGo_cons_stop h1]
      exact hpair
    · have hname : t.name ∈ (t :: rest).map FsTree.name := by
        simp only [List.map_cons]
        exact List.mem_cons_self _ _
      have hpairMA : List.Pairwise notDescBefore
          (if pyContains ql (pyLower t.name) then
            acc ++ [(rel ++ [t.name], cur ++ [t.name])] else acc) := by
        by_cases hm : pyContains ql (pyLower t.name) = true
        · rw [if_pos hm]
          rw [List.pairwise_append]
          refine ⟨hpair, List.pairwise_singleton _ _, ?_⟩
          intro a ha p hp
          have hpeq : p = (rel ++ [t.name], cur ++ [t.name]) := by simpa using hp
          subst hpeq
          intro hcon
          exact hout a ha t.name hname hcon.1
        · rw [if_neg hm]
          exact hpair
      have houtMA : ∀ a ∈ (if pyContains ql (pyLower t.name) then
          acc ++ [(rel ++ [t.name], cur ++ [t.name])] else acc),
          ∀ m, m ∈ rest.map FsTree.name → ¬ ((rel ++ [m]) <+: a.1) := by
        intro a ha m hmr hpre
        have hmn : m ≠ t.name := fun he => hnmem (he ▸ hmr)
        by_cases hm : pyContains ql (pyLower t.name) = true
        · rw [if_pos hm] at ha
          rcases List.mem_append.mp ha with ha | ha
          · exact hout a ha m (by simp only [List.map_cons]; exact List.mem_cons_of_mem _ hmr) hpre
          · have heq : a = (rel ++ [t.name], cur ++ [t.name]) := by simpa using ha
            subst heq
            exact hmn (pref_append_singleton hpre)
        · rw [if_neg hm] at ha
          exact hout a ha m (by simp only [List.map_cons]; exact List.mem_cons_of_mem _ hmr) hpre
      cases t with
      | file n =>
        by_cases h2 : (!cfg.show_hidden && pyStartsDot n) = true
        · rw [searchGo_cons_hidden h1 h2]
          refine ihr cur rel depth acc hwfr hpair ?_
          intro a ha m hmr hpre
          exact hout a ha m (by simp only [List.map_cons]; exact List.mem_cons_of_mem _ hmr) hpre
        · have h2' : (!cfg.show_hidden && pyStartsDot n) = false := by
            revert h2; cases (!cfg.show_hidden && pyStartsDot n) <;> simp
          rw [searchGo_cons_file h1 h2']
          exact ihr cur rel depth _ hwfr (by simpa [FsTree.name] using hpairMA)
            (by simpa [FsTree.name] using houtMA)
      | dir n children =>
        simp only [childrenList] at ihc
        simp only [FsTree.name] at hpairMA houtMA hnmem
        by_cases h2 : (!cfg.show_hidden && pyStartsDot n) = true
        · rw [searchGo_cons_hidden h1 h2]
          refine ihr cur rel depth acc hwfr hpair ?_
          intro a ha m hmr hpre
          exact hout a ha m (by simp only [List.map_cons]; exact List.mem_cons_of_mem _ hmr) hpre
        · have h2' : (!cfg.show_hidden && pyStartsDot n) = false := by
            revert h2; cases (!cfg.show_hidden && pyStartsDot n) <;> simp
          rw [searchGo_cons_dir h1 h2']
          -- properties of the accumulator handed to the recursive scan
          have houtCh : ∀ a ∈ (if pyContains ql (pyLower n) then
              acc ++ [(rel ++ [n], cur ++ [n])] else acc),
              ∀ m, m ∈ children.map FsTree.name → ¬ (((rel ++ [n]) ++ [m]) <+: a.1) := by
            intro a ha m _ hpre
            by_cases hm : pyContains ql (pyLower n) = true
            · rw [if_pos hm] at ha
              rcases List.mem_append.mp ha with ha | ha
              · exact hout a ha n (by simp [FsTree.name]) (base_of_pref_append_singleton hpre)
              · have heq : a = (rel ++ [n], cur ++ [n]) := by simpa using ha
                subst heq
                exact not_pref_self_append_singleton (rel ++ [n]) m hpre
            · rw [if_neg hm] at ha
              exact hout a ha n (by simp [FsTree.name]) (base_of_pref_append_singleton hpre)
          have hpair2 : List.Pairwise notDescBefore
              (if maxR ≤ (if pyContains ql (pyLower n) then
                  acc ++ [(rel ++ [n], cur ++ [n])] else acc).length
                  ∨ cfg.search_max_depth < depth + 1 then
                (if pyContains ql (pyLower n) then acc ++ [(rel ++ [n], cur ++ [n])] else acc)
               else searchGo cfg maxR ql children (cur ++ [n]) (rel ++ [n]) (depth + 1)
                (if pyContains ql (pyLower n) then acc ++ [(rel ++ [n], cur ++ [n])] else acc)) := by
            by_cases hg : maxR ≤ (if pyContains ql (pyLower n) then
                acc ++ [(rel ++ [n], cur ++ [n])] else acc).length
                ∨ cfg.search_max_depth < depth + 1
            · rw [if_pos hg]; exact hpairMA
            · rw [if_neg hg]
              exact ihc (cur ++ [n]) (rel ++ [n]) (depth + 1) _ hwfc hpairMA houtCh
          refine ihr cur rel depth _ hwfr hpair2 ?_
          intro a ha m hmr hpre
          have hmn : m ≠ n := fun he => hnmem (he ▸ hmr)
          by_cases hg : maxR ≤ (if pyContains ql (pyLower n) then
              acc ++ [(rel ++ [n], cur ++ [n])] else acc).length
              ∨ cfg.search_max_depth < depth + 1
          · rw [if_pos hg] at ha
            exact houtMA a ha m hmr hpre
          · rw [if_neg hg] at ha
            rcases searchGo_new_pairs cfg maxR ql children (cur ++ [n]) (rel ++ [n])
                (depth + 1) _ a ha with ha' | ⟨m2, _, hm2'⟩
            · exact houtMA a ha' m hmr hpre
            · -- a.1 extends (rel ++ [n]) ++ [m2]; a prefix (rel ++ [m]) of it forces m = n
              have hpn : (rel ++ [n]) <+: a.1 :=
                (List.prefix_append (rel ++ [n]) [m2]).trans hm2'
              have hlen : (rel ++ [m]).length ≤ (rel ++ [n]).length := by
                simp [List.length_append]
              have := List.prefix_of_prefix_length_le hpre hpn hlen
              exact hmn (pref_append_singleton this)

theorem searchGo_prune (cfg : Config) (maxR : Nat) (ql : List Char) (cs : List FsTree) :
    ∀ cur rel depth acc,
      searchGo cfg maxR ql (cs.map (pruneAt (cfg.search_max_depth - depth))) cur rel depth acc =
        searchGo cfg maxR ql cs cur rel depth acc := by
  induction cs using forest_ind with
  | hnil =>
    intro cur rel depth acc
    rw [List.map_nil]
  | hcons t rest ihc ihr =>
    intro cur rel depth acc
    rw [List.map_cons]
    by_cases h1 : maxR ≤ acc.length
    · rw [searchGo_cons_stop h1, searchGo_cons_stop h1]
    · cases t with
      | file n =>
        have hpr : pruneAt (cfg.search_max_depth - depth) (FsTree.file n) = FsTree.file n := by
          simp [pruneAt]
        rw [hpr]
        by_cases h2 : (!cfg.show_hidden && pyStartsDot n) = true
        · rw [searchGo_cons_hidden h1 h2, searchGo_cons_hidden h1 h2]
          exact ihr cur rel depth acc
        · have h2' : (!cfg.show_hidden && pyStartsDot n) = false := by
            revert h2; cases (!cfg.show_hidden && pyStartsDot n) <;> simp
          rw [searchGo_cons_file h1 h2', searchGo_cons_file h1 h2']
          exact ihr cur rel depth _
      | dir n children =>
        simp only [childrenList] at ihc
        by_cases hg : cfg.search_max_depth < depth + 1
        · have hpr : pruneAt (cfg.search_max_depth - depth) (FsTree.dir n children) =
              FsTree.dir n [] := by
            have hk : cfg.search_max_depth - depth = 0 := by omega
            rw [hk]
            simp [pruneAt]
          rw [hpr]
          by_cases h2 : (!cfg.show_hidden && pyStartsDot n) = true
          · rw [searchGo_cons_hidden h1 h2, searchGo_cons_hidden h1 h2]
            exact ihr cur rel depth acc
          · have h2' : (!cfg.show_hidden && pyStartsDot n) = false := by
              revert h2; cases (!cfg.show_hidden && pyStartsDot n) <;> simp
            rw [searchGo_cons_dir h1 h2', searchGo_cons_dir h1 h2']
            rw [if_pos (Or.inr hg), if_pos (Or.inr hg)]
            exact ihr cur rel depth _
        · have hpr : pruneAt (cfg.search_max_depth - depth) (FsTree.dir n children) =
              FsTree.dir n (children.map (pruneAt (cfg.search_max_depth - (depth + 1)))) := by
            have hk : cfg.search_max_depth - depth =
                (cfg.search_max_depth - (depth + 1)) + 1 := by omega
            rw [hk]
            simp [pruneAt]
          rw [hpr]
          by_cases h2 : (!cfg.show_hidden && pyStartsDot n) = true
          · rw [searchGo_cons_hidden h1 h2, searchGo_cons_hidden h1 h2]
            exact ihr cur rel depth acc
          · have h2' : (!cfg.show_hidden && pyStartsDot n) = false := by
              revert h2; cases (!cfg.show_hidden && pyStartsDot n) <;> simp
            rw [searchGo_cons_dir h1 h2', searchGo_cons_dir h1 h2']
            by_cases hg2 : maxR ≤ (if pyContains ql (pyLower n) then
                acc ++ [(rel ++ [n], cur ++ [n])] else acc).length
            · rw [if_pos (Or.inl hg2), if_pos (Or.inl hg2)]
              exact ihr cur rel depth _
            · have hng : ¬(maxR ≤ (if pyContains ql (pyLower n) then
                  acc ++ [(rel ++ [n], cur ++ [n])] else acc).length
                  ∨ cfg.search_max_depth < depth + 1) := by
                intro h
                rcases h with h | h
                · exact hg2 h
                · exact hg h
              rw [if_neg hng, if_neg hng]
              rw [ihc (cur ++ [n]) (rel ++ [n]) (depth + 1) _]
              exact ihr cur rel depth _

/-! ### Claim C2: search result cap and depth bound -/

/-- Claim C2: for every root directory, query, `max_results` and configured
`search_max_depth`, the search returns at most `max_results` pairs; it never
reads a directory nested more than `max_depth` levels below the search root
(expressed by invariance of the result under truncating the tree below that
level: traversal stops with the contents of directories at depth
`max_depth + 1` removed, the result is unchanged); and both the per-entry
loop and a recursive call stop immediately once `max_results` results have
been collected. -/
theorem c2_search_bounds (cfg : Config) (q : String) (maxR : Nat) (root : List String)
    (cs : List FsTree) :
    (search_files_recursive cfg cs root q maxR).length ≤ maxR
    ∧ search_files_recursive cfg (cs.map (pruneAt cfg.search_max_depth)) root q maxR =
        search_files_recursive cfg cs root q maxR
    ∧ (∀ cs' cur rel depth acc, maxR ≤ acc.length →
        searchGo cfg maxR (pyLower q) cs' cur rel depth acc = acc) := by
  refine ⟨?_, ?_, ?_⟩
  · unfold search_files_recursive
    split
    · simp
    · exact searchGo_length cfg maxR (pyLower q) cs root [] 0 [] (Nat.zero_le maxR)
  · unfold search_files_recursive
    split
    · rfl
    · have h := searchGo_prune cfg maxR (pyLower q) cs root [] 0 []
      rwa [Nat.sub_zero] at h
  · intro cs' cur rel depth acc h
    cases cs' with
    | nil => exact searchGo_nil cfg maxR (pyLower q) cur rel depth acc
    | cons t rest => exact searchGo_cons_stop h

/-- Witness for C2 at a concrete tree and cap 1. -/
theorem c2_search_bounds_witness :
    (search_files_recursive CONFIG [FsTree.file ("ab")] [] ("a") 1).length ≤ 1 ∧
    searchGo CONFIG 1 (pyLower ("a")) [FsTree.file ("ab")] [] [] 0 [([("x")], [("x")])] =
      [([("x")], [("x")])] :=
  ⟨(c2_search_bounds CONFIG ("a") 1 [] [FsTree.file ("ab")]).1,
   (c2_search_bounds CONFIG ("a") 1 [] [FsTree.file ("ab")]).2.2 [FsTree.file ("ab")]
     [] [] 0 [([("x")], [("x")])] (by decide)⟩

/-! ### Claims C7 and C10: what the search returns -/

/-- Demonstration tree for the search-claim witnesses. -/
def c7Demo : List FsTree :=
  [FsTree.dir ("Ab") [FsTree.file ("xa")], FsTree.file (".ha")]

/-- Claim C7: every pair the search returns has a display-path basename that
contains the query as a case-insensitive substring; with `show_hidden` off no
returned pair has any dot-named component (hidden entries are neither matched
nor traversed); and — on any tree with distinct sibling names, as a real file
system guarantees — a matching directory is recorded before anything found
inside it: no pair is preceded in the result by a pair of which its display
path is a proper prefix. -/
theorem c7_search_results (cfg : Config) (q : String) (maxR : Nat) (root : List String)
    (cs : List FsTree) :
    (∀ b ∈ search_files_recursive cfg cs root q maxR,
       pyContains (pyLower q) (pyLower (basenameOf b.1)) = true)
    ∧ (cfg.show_hidden = false →
       ∀ b ∈ search_files_recursive cfg cs root q maxR, ∀ x ∈ b.1, pyStartsDot x = false)
    ∧ (wfForest cs = true →
       List.Pairwise notDescBefore (search_files_recursive cfg cs root q maxR)) := by
  have hgood : ∀ b ∈ search_files_recursive cfg cs root q maxR,
      GoodRes cfg (pyLower q) root b := by
    intro b hb
    unfold search_files_recursive at hb
    split at hb
    · simp at hb
    · exact searchGo_good cfg maxR (pyLower q) root cs root [] 0 []
        (List.append_nil root).symm (fun _ x hx => absurd hx (List.not_mem_nil x))
        (fun a ha => absurd ha (List.not_mem_nil a)) b hb
  refine ⟨?_, ?_, ?_⟩
  · intro b hb
    exact (hgood b hb).2.1
  · intro hsh b hb x hx
    exact (hgood b hb).2.2 hsh x hx
  · intro hwf
    unfold search_files_recursive
    split
    · exact List.Pairwise.nil
    · exact searchGo_ordered cfg maxR (pyLower q) cs root [] 0 [] hwf List.Pairwise.nil
        (fun a ha => absurd ha (List.not_mem_nil a))

/-- Witness for C7 on a concrete tree (hidden sibling present, nested match). -/
theorem c7_search_results_witness :
    List.Pairwise notDescBefore (search_files_recursive CONFIG c7Demo [] ("a") 100) :=
  (c7_search_results CONFIG ("a") 100 [] c7Demo).2.2
    (by simp +decide [wfForest, childrenList, FsTree.name, c7Demo])

/-- Claim C10: for every pair `(display_path, absolute_path)` the recursive
search returns, the absolute path is exactly the search root joined with the
display path. -/
theorem c10_search_root_join (cfg : Config) (q : String) (maxR : Nat) (root : List String)
    (cs : List FsTree) (b : SResult)
    (hb : b ∈ search_files_recursive cfg cs root q maxR) :
    b.2 = root ++ b.1 := by
  unfold search_files_recursive at hb
  split at hb
  · simp at hb
  · exact (searchGo_good cfg maxR (pyLower q) root cs root [] 0 []
      (List.append_nil root).symm (fun _ x hx => absurd hx (List.not_mem_nil x))
      (fun a ha => absurd ha (List.not_mem_nil a)) b hb).1

/-- Witness for C10: the pair found for query `a` under root `r`. -/
theorem c10_search_root_join_witness :
    (([("ab")], [("r"), ("ab")]) : SResult).2 = [("r")] ++ ([("ab")], [("r"), ("ab")]).1 :=
  c10_search_root_join CONFIG ("a") 100 [("r")] [FsTree.file ("ab")]
    ([("ab")], [("r"), ("ab")])
    (by simp +decide [search_files_recursive, searchGo, FsTree.name])

/-! ### Claim C8: directory listing -/

theorem mem_sortNames {a : String} {l : List String} : a ∈ sortNames l ↔ a ∈ l :=
  (List.perm_insertionSort strLeP l).mem_iff

theorem sorted_sortNames (l : List String) : List.Sorted strLeP (sortNames l) :=
  List.sorted_insertionSort strLeP l

/-- Demonstration directory for the C8 witness. -/
def c8Demo : List FsTree :=
  [FsTree.file ("b.txt"), FsTree.dir ("a") [], FsTree.file (".h")]

/-- Claim C8: the listing excludes dot names unless `show_hidden` is set;
with `sort_dirs_first` the result is a block of directory names followed by a
block of file names, each block in alphabetical (code-point) order; without
the flag the whole listing is alphabetical; and a permission error yields the
empty listing instead of failing. -/
theorem c8_list_dir (cfg : Config) (cs : List FsTree) (e : ListFail) :
    (cfg.show_hidden = false → ∀ n ∈ list_dir cfg (Except.ok cs), pyStartsDot n = false)
    ∧ (cfg.sort_dirs_first = true → ∃ A B,
        list_dir cfg (Except.ok cs) = A ++ B
        ∧ List.Sorted strLeP A ∧ List.Sorted strLeP B
        ∧ (∀ a ∈ A, isDirNamed cs a = true)
        ∧ (∀ b ∈ B, isDirNamed cs b = false))
    ∧ (cfg.sort_dirs_first = false → List.Sorted strLeP (list_dir cfg (Except.ok cs)))
    ∧ list_dir cfg (Except.error e) = [] := by
  refine ⟨?_, ?_, ?_, rfl⟩
  · intro hsh n hn
    simp only [list_dir, listDirCore, hsh, if_false, Bool.false_eq_true] at hn
    by_cases hsf : cfg.sort_dirs_first = true
    · rw [if_pos hsf, List.mem_append, mem_sortNames, mem_sortNames] at hn
      rcases hn with hn | hn <;>
      · have hn2 := (List.mem_filter.mp hn).1
        have := (List.mem_filter.mp hn2).2
        simpa using this
    · rw [if_neg hsf, mem_sortNames] at hn
      have := (List.mem_filter.mp hn).2
      simpa using this
  · intro hsf
    refine ⟨sortNames ((if cfg.show_hidden then cs.map FsTree.name
        else (cs.map FsTree.name).filter (fun x => !(pyStartsDot x))).filter
          (fun x => isDirNamed cs x)),
      sortNames ((if cfg.show_hidden then cs.map FsTree.name
        else (cs.map FsTree.name).filter (fun x => !(pyStartsDot x))).filter
          (fun x => !(isDirNamed cs x))),
      ?_, sorted_sortNames _, sorted_sortNames _, ?_, ?_⟩
    · simp only [list_dir, listDirCore, hsf, if_true]
    · intro a ha
      rw [mem_sortNames] at ha
      exact (List.mem_filter.mp ha).2
    · intro b hb
      rw [mem_sortNames] at hb
      have := (List.mem_filter.mp hb).2
      simpa using this
  · intro hsf
    simp only [list_dir, listDirCore, hsf, Bool.false_eq_true, if_false]
    exact sorted_sortNames _

/-- Witness for C8 on a concrete directory with a dot file, a directory and a
plain file. -/
theorem c8_list_dir_witness :
    ∃ A B, list_dir CONFIG (Except.ok c8Demo) = A ++ B
      ∧ List.Sorted strLeP A ∧ List.Sorted strLeP B
      ∧ (∀ a ∈ A, isDirNamed c8Demo a = true)
      ∧ (∀ b ∈ B, isDirNamed c8Demo b = false) :=
  (c8_list_dir CONFIG c8Demo ListFail.permissionDenied).2.1 rfl

/-! ### Projections of the drawn state (only `offset` changes in the draw
phase) -/

theorem drawnState_files (hS : Int) (s0 : BState) : (drawnState hS s0).files = s0.files := rfl

theorem drawnState_path (hS : Int) (s0 : BState) : (drawnState hS s0).path = s0.path := rfl

theorem drawnState_search_mode (hS : Int) (s0 : BState) :
    (drawnState hS s0).search_mode = s0.search_mode := rfl

theorem drawnState_all_files (hS : Int) (s0 : BState) :
    (drawnState hS s0).all_files = s0.all_files := rfl

theorem drawnState_search_query (hS : Int) (s0 : BState) :
    (drawnState hS s0).search_query = s0.search_query := rfl

theorem drawnState_curEntry (hS : Int) (s0 : BState) :
    curEntry (drawnState hS s0) = curEntry s0 := rfl

/-! ### Claim C5: renaming to an existing name -/

theorem renameAt_already (cs : List FsTree) (p : List String) (sub : List FsTree)
    (oldN newN : String)
    (hp : getDirChildren cs p = some sub)
    (hold : (findChild sub oldN).isSome = true)
    (hnew : (findChild sub newN).isSome = true) :
    renameAt cs p oldN newN = .error .alreadyExists := by
  induction p generalizing cs with
  | nil =>
    simp only [getDirChildren, Option.some.injEq] at hp
    subst hp
    obtain ⟨o, ho⟩ := Option.isSome_iff_exists.mp hold
    obtain ⟨o2, ho2⟩ := Option.isSome_iff_exists.mp hnew
    simp [renameAt, renameInChildren, ho, ho2]
  | cons d rest ih =>
    rw [getDirChildren] at hp
    cases hfc : findChild cs d with
    | none => rw [hfc] at hp; simp at hp
    | some t =>
      cases t with
      | file m => rw [hfc] at hp; simp at hp
      | dir m cs' =>
        rw [hfc] at hp
        simp only at hp
        rw [renameAt, hfc]
        simp [ih cs' hp]

/-- The file system and state of the C5 witness: two files `a` and `b` in the
current directory, selection on `a`. -/
def c5Fs : List FsTree := [FsTree.file ("a"), FsTree.file ("b")]

def c5State : BState :=
  { cfg := CONFIG
    path := []
    files := [Entry.plain ("a"), Entry.plain ("b")]
    all_files := [Entry.plain ("a"), Entry.plain ("b")]
    search_results := []
    current_idx := 0
    offset := 0
    search_mode := false
    search_query := ""
    last_click_time := 0
    last_click_idx := -1
    quitFlag := false }

def c5Orc : Oracles := ⟨"b", false, none⟩

/-- Claim C5: renaming the selected entry to a name that already exists in
the directory fails with `AlreadyExists` (spec-modelled contract of
`os.rename`), and on that failure the `F2` handler leaves both the browser's
entry list and the file system — hence the directory listing — unchanged;
only a successful rename reloads the listing. -/
theorem c5_rename_existing (hS : Int) (fs : List FsTree) (s : BState) (orc : Oracles)
    (nm : String) (sub : List FsTree)
    (hmode : s.search_mode = false)
    (hne : s.files ≠ [])
    (hidx : s.current_idx < (s.files.length : Int))
    (hcur : curEntry s = some (Entry.plain nm))
    (hinp : orc.input ≠ "")
    (hsub : getDirChildren fs s.path = some sub)
    (hold : (findChild sub nm).isSome = true)
    (hnew : (findChild sub orc.input).isSome = true) :
    renameAt fs s.path nm orc.input = Except.error FsErr.alreadyExists
    ∧ (step hS fs s (Event.key 266 orc)).1.files = s.files
    ∧ (step hS fs s (Event.key 266 orc)).2 = fs := by
  have hren : renameAt fs s.path nm orc.input = .error .alreadyExists :=
    renameAt_already fs s.path sub nm orc.input hsub hold hnew
  have hdisp : step hS fs s (Event.key 266 orc) = renameKey fs (drawnState hS s) orc := by
    rw [step, drawnState_search_mode, hmode]
    simp [normalKey]
  have hrk : renameKey fs (drawnState hS s) orc = (drawnState hS s, fs) := by
    unfold renameKey
    rw [if_pos (show (drawnState hS s).files ≠ [] ∧
        (drawnState hS s).current_idx < ((drawnState hS s).files.length : Int) from ⟨hne, hidx⟩)]
    rw [show curEntry (drawnState hS s) = some (Entry.plain nm) from hcur]
    simp only [entryFull, List.dropLast_concat, List.getLast?_concat, Option.getD_some,
      drawnState_path, hren]
    rw [if_pos hinp]
  rw [hdisp, hrk]
  exact ⟨hren, drawnState_files hS s, rfl⟩

/-- Witness for C5: renaming `a` to the existing sibling name `b`. -/
theorem c5_rename_existing_witness :
    renameAt c5Fs c5State.path ("a") c5Orc.input = Except.error FsErr.alreadyExists
    ∧ (step 24 c5Fs c5State (Event.key 266 c5Orc)).1.files = c5State.files :=
  ⟨(c5_rename_existing 24 c5Fs c5State c5Orc ("a") c5Fs rfl (by decide) (by decide)
      (by decide) (by decide) rfl (by decide) (by decide)).1,
   (c5_rename_existing 24 c5Fs c5State c5Orc ("a") c5Fs rfl (by decide) (by decide)
      (by decide) (by decide) rfl (by decide) (by decide)).2.1⟩

/-! ### Claim C3: the search-mode round trip -/

/-- Popup oracles for events that open no popup. -/
def noOracle : Oracles := ⟨"", false, none⟩

/-- A Backspace key press (`curses.KEY_BACKSPACE`). -/
def bspEv : Event := Event.key 263 noOracle

/-- The search-editing events of the claim: a Backspace-family key or a
printable character (the keys the search-mode branch treats as query
edits). -/
def isSearchEdit : Event → Prop
  | .key c _ => c = 263 ∨ c = 127 ∨ c = 8 ∨ c = 330 ∨ (32 ≤ c ∧ c ≤ 126)
  | .mouse _ _ => False

/-- The invariant holding from the moment Search mode is entered with
snapshot `F0`: the mode is on, the snapshot `all_files` is `F0`, and while
the query is empty the displayed listing is the snapshot. -/
def SearchInv (F0 : List Entry) (s : BState) : Prop :=
  s.search_mode = true ∧ s.all_files = F0 ∧ (s.search_query.data = [] → s.files = F0)

theorem push_data (s : String) (c : Char) : (s.push c).data = s.data ++ [c] := by
  cases s
  rfl

theorem searchModeKey_edit_inv {F0 : List Entry} (fs : List FsTree) (s : BState) (c : Nat)
    (hInv : SearchInv F0 s)
    (hc : c = 263 ∨ c = 127 ∨ c = 8 ∨ c = 330 ∨ (32 ≤ c ∧ c ≤ 126)) :
    SearchInv F0 (searchModeKey fs s c) := by
  obtain ⟨hm, ha, hq⟩ := hInv
  by_cases hb : c = 263 ∨ c = 127 ∨ c = 8 ∨ c = 330
  · unfold searchModeKey
    rw [if_pos hb]
    by_cases hqe : s.search_query.data = []
    · rw [if_pos hqe]
      exact ⟨hm, ha, hq⟩
    · rw [if_neg hqe]
      by_cases hq2 : (strDropLast s.search_query).data = []
      · rw [if_pos hq2]
        exact ⟨hm, ha, fun _ => ha⟩
      · rw [if_neg hq2]
        exact ⟨hm, ha, fun h => absurd h hq2⟩
  · rcases hc with h | h | h | h | h
    · exact absurd (Or.inl h) hb
    · exact absurd (Or.inr (Or.inl h)) hb
    · exact absurd (Or.inr (Or.inr (Or.inl h))) hb
    · exact absurd (Or.inr (Or.inr (Or.inr h))) hb
    · unfold searchModeKey
      rw [if_neg hb, if_neg (by omega : ¬ c = 27),
        if_neg (by omega : ¬(c = 343 ∨ c = 10 ∨ c = 13)), if_pos h]
      refine ⟨hm, ha, ?_⟩
      intro hqq
      rw [push_data] at hqq
      simp at hqq

theorem step_edit_keeps (hS : Int) (fs : List FsTree) (s : BState) (e : Event)
    {F0 : List Entry} (hInv : SearchInv F0 s) (he : isSearchEdit e) :
    SearchInv F0 (step hS fs s e).1 ∧ (step hS fs s e).2 = fs := by
  cases e with
  | mouse m orc => exact he.elim
  | key c orc =>
    have hc : c = 263 ∨ c = 127 ∨ c = 8 ∨ c = 330 ∨ (32 ≤ c ∧ c ≤ 126) := he
    have hm : (drawnState hS s).search_mode = true := hInv.1
    rw [step, if_pos hm]
    refine ⟨?_, rfl⟩
    exact searchModeKey_edit_inv fs (drawnState hS s) c ⟨hInv.1, hInv.2.1, hInv.2.2⟩ hc

theorem steps_nil (hS : Int) (p : BState × List FsTree) : steps hS [] p = p := rfl

theorem steps_cons (hS : Int) (e : Event) (es : List Event) (p : BState × List FsTree) :
    steps hS (e :: es) p = steps hS es (step hS p.2 p.1 e) := rfl

theorem steps_edit_inv (hS : Int) {F0 : List Entry} :
    ∀ (es : List Event) (p : BState × List FsTree),
      (∀ e ∈ es, isSearchEdit e) → SearchInv F0 p.1 → SearchInv F0 (steps hS es p).1 := by
  intro es
  induction es with
  | nil => intro p _ h; exact h
  | cons e es ih =>
    intro p hall hInv
    rw [steps_cons]
    exact ih _ (fun x hx => hall x (List.mem_cons_of_mem _ hx))
      (step_edit_keeps hS p.2 p.1 e hInv (hall e (List.mem_cons_self _ _))).1

theorem searchModeKey_bsp_query (fs : List FsTree) (s : BState)
    (hq : ¬ s.search_query.data = []) :
    (searchModeKey fs s 263).search_query = strDropLast s.search_query := by
  unfold searchModeKey
  rw [if_pos (Or.inl rfl), if_neg hq]
  by_cases h2 : (strDropLast s.search_query).data = []
  · rw [if_pos h2]
  · rw [if_neg h2]

theorem steps_backspace_drain (hS : Int) {F0 : List Entry} :
    ∀ (k : Nat) (p : BState × List FsTree), SearchInv F0 p.1 →
      p.1.search_query.data.length = k →
      (steps hS (List.replicate k bspEv) p).1.files = F0 := by
  intro k
  induction k with
  | zero =>
    intro p hInv hlen
    rw [List.replicate_zero, steps_nil]
    exact hInv.2.2 (List.length_eq_zero.mp hlen)
  | succ k ih =>
    intro p hInv hlen
    rw [List.replicate_succ, steps_cons]
    have hq : ¬ p.1.search_query.data = [] := by
      intro h
      rw [h] at hlen
      simp at hlen
    have hm : (drawnState hS p.1).search_mode = true := hInv.1
    have hone : (step hS p.2 p.1 bspEv).1 = searchModeKey p.2 (drawnState hS p.1) 263 := by
      rw [show bspEv = Event.key 263 noOracle from rfl, step, if_pos hm]
    apply ih
    · exact (step_edit_keeps hS p.2 p.1 bspEv hInv (Or.inl rfl)).1
    · rw [hone, searchModeKey_bsp_query p.2 (drawnState hS p.1) hq]
      show (strDropLast p.1.search_query).data.length = k
      rw [show (strDropLast p.1.search_query).data = p.1.search_query.data.dropLast from rfl]
      rw [List.length_dropLast]
      omega

theorem searchModeKey_esc_files (fs : List FsTree) (s : BState) :
    (searchModeKey fs s 27).files = s.all_files := by
  unfold searchModeKey
  rw [if_neg (by decide : ¬((27 : Nat) = 263 ∨ (27 : Nat) = 127 ∨ (27 : Nat) = 8 ∨
    (27 : Nat) = 330)), if_pos rfl]

/-- Claim C3: entering Search mode snapshots the current entry list; after
any sequence of query edits (printable characters and Backspace-family keys),
pressing Escape restores exactly the pre-search entry list, and so does
deleting the remaining query characters one Backspace at a time — in both
cases the listing is taken from the snapshot, not recomputed by an
empty-query search. -/
theorem c3_search_restore (hS : Int) (fs : List FsTree) (s : BState)
    (orc1 orc2 : Oracles) (es : List Event)
    (hmode : s.search_mode = false)
    (hes : ∀ e ∈ es, isSearchEdit e) :
    (step hS (steps hS es (step hS fs s (Event.key 47 orc1))).2
       (steps hS es (step hS fs s (Event.key 47 orc1))).1 (Event.key 27 orc2)).1.files = s.files
    ∧ (steps hS (List.replicate
         (steps hS es (step hS fs s (Event.key 47 orc1))).1.search_query.data.length bspEv)
         (steps hS es (step hS fs s (Event.key 47 orc1)))).1.files = s.files := by
  have hm0 : (drawnState hS s).search_mode = false := hmode
  have h1 : SearchInv s.files (step hS fs s (Event.key 47 orc1)).1 := by
    rw [step, hm0]
    simp only [Bool.false_eq_true, if_false, normalKey]
    norm_num
    exact ⟨rfl, drawnState_files hS s, fun _ => drawnState_files hS s⟩
  have h2 := steps_edit_inv hS es (step hS fs s (Event.key 47 orc1)) hes h1
  constructor
  · have hm2 : (drawnState hS (steps hS es (step hS fs s (Event.key 47 orc1))).1).search_mode =
        true := h2.1
    rw [step, if_pos hm2, searchModeKey_esc_files]
    exact h2.2.1
  · exact steps_backspace_drain hS _ _ h2 rfl

/-- The state and tree of the C3 witness. -/
def c3Fs : List FsTree := [FsTree.file ("a")]

def c3State : BState :=
  { cfg := CONFIG
    path := []
    files := [Entry.plain ("a")]
    all_files := [Entry.plain ("a")]
    search_results := []
    current_idx := 0
    offset := 0
    search_mode := false
    search_query := ""
    last_click_time := 0
    last_click_idx := -1
    quitFlag := false }

/-- Witness for C3: enter Search mode and immediately press Escape. -/
theorem c3_search_restore_witness :
    (step 24 (steps 24 [] (step 24 c3Fs c3State (Event.key 47 noOracle))).2
       (steps 24 [] (step 24 c3Fs c3State (Event.key 47 noOracle))).1
       (Event.key 27 noOracle)).1.files = c3State.files :=
  (c3_search_restore 24 c3Fs c3State noOracle noOracle [] rfl
    (fun e he => absurd he (List.not_mem_nil e))).1
